import Mathlib

/-!
# Verification of the Signal-Desktop backup export/import pipeline

A shallow embedding of `BackupsService.exportBackup` / `BackupsService.importBackup`
(`ts/services/backups/index.ts`) and of the stream stages they compose.

Bytes are `Nat` values; a byte stream is a `List Nat`.  The stream pipeline of the
source is modelled functionally: each stage is a function on the whole byte stream,
and `pipeline` folds the stages over the source bytes in order.  External
cryptographic primitives (AES-256-CBC block encryption, HMAC-SHA-256, gzip) and
repository utility stages whose code is outside the analysed file are modelled
from the specification, each with a doc comment saying so.
-/

namespace Backups

/-! ## Definitions -/

/-- A byte stream is a list of natural numbers (each byte a `Nat`). -/
abbrev Bytes := List Nat

/-- Fuel-indexed little-endian base-128 varint encoder (structural recursion on
fuel so that the kernel can evaluate it). -/
def varintEncodeFuel : Nat → Nat → Bytes
  | 0, n => [n % 128]
  | f + 1, n => if n < 128 then [n] else (n % 128 + 128) :: varintEncodeFuel f (n / 128)

/-- Little-endian base-128 varint encoding of a natural number. -/
def varintEncode (n : Nat) : Bytes := varintEncodeFuel n n

/-- Varint decoder: returns the decoded value and the unconsumed rest. -/
def varintDecode : Bytes → Option (Nat × Bytes)
  | [] => none
  | b :: rest =>
    if b < 128 then some (b, rest)
    else
      match varintDecode rest with
      | some (m, rest') => some ((b - 128) + 128 * m, rest')
      | none => none

/-- `BackupExportStream`: emits each backup record as a length-delimited frame
(varint length prefix followed by the record bytes), concatenated in order.
Modelled from the spec: the record stream is "an opaque ordered byte stream of
length-delimited records"; the record-level schema itself is out of scope. -/
def encodeRecords (rs : List Bytes) : Bytes :=
  rs.foldr (fun r acc => varintEncode r.length ++ r ++ acc) []

/-- Fuel-indexed decoder splitting a delimited byte stream back into records
(structural recursion on fuel so that the kernel can evaluate it). -/
def decodeRecordsFuel : Nat → Bytes → Option (List Bytes)
  | _, [] => some []
  | 0, _ :: _ => none
  | f + 1, b :: l =>
    match varintDecode (b :: l) with
    | none => none
    | some (len, rest) =>
      if len ≤ rest.length then
        match decodeRecordsFuel f (rest.drop len) with
        | some rs => some (rest.take len :: rs)
        | none => none
      else none

/-- `DelimitedStream`: splits a length-delimited byte stream into the sequence of
records it frames.  Modelled from the spec: the import pipeline "reframe[s] into
delimited records, and feed[s] each record into the Record Stream sink". -/
def decodeRecords (l : Bytes) : Option (List Bytes) :=
  decodeRecordsFuel l.length l

/-- `createGzip`: gzip compression of a byte stream.  Modelled from the spec:
the codec is treated as an opaque self-delimiting container — "the compressed
container's own length field, not the padding, determines meaningful content" —
so it is modelled as a varint length field followed by the payload bytes. -/
def gzipC (data : Bytes) : Bytes := varintEncode data.length ++ data

/-- `createGunzip`: gzip decompression.  Modelled from the spec: reads the
container's own length field and ignores any trailing padding bytes ("padding
bytes must not corrupt the compressed stream when decompressed by a conformant
decompressor"); fails on a malformed container. -/
def gunzipC (l : Bytes) : Option Bytes :=
  match varintDecode l with
  | none => none
  | some (n, rest) => if n ≤ rest.length then some (rest.take n) else none

/-- The size bucket a payload of `n` bytes is padded to.  Modelled from the
spec: padded length "falls into one of a fixed set of size buckets (e.g., powers
of a base, or fixed block increments)"; the model uses fixed 64-byte increments. -/
def bucketSize (n : Nat) : Nat := 64 * ((n + 63) / 64)

/-- `appendPaddingStream`: appends zero bytes after compression so that the
padded length lands on a size bucket.  Modelled from the spec: padding is
applied after compression and before encryption, and is ignored by the
decompressor on import. -/
def appendPadding (b : Bytes) : Bytes :=
  b ++ List.replicate (bucketSize b.length - b.length) 0

/-- Pointwise XOR of two byte blocks (truncating to the shorter). -/
def xorB (a b : Bytes) : Bytes := List.zipWith Nat.xor a b

/-- The per-block key stream derived from the AES key.  Modelled from the spec:
AES-256 block encryption is an external keyed bijective block transform; the
model realises it as XOR with a 16-byte key-derived block. -/
def keyBlock (aesKey : Bytes) : Bytes :=
  (List.range 16).map (fun i => aesKey.getD (i % (max 1 aesKey.length)) 0 % 256)

/-- PKCS#7 block padding internal to the cipher primitive: pads to a multiple
of the 16-byte block size; the pad length (1..16) is stored in each pad byte. -/
def pkcsPad (pt : Bytes) : Bytes :=
  pt ++ List.replicate (16 - pt.length % 16) (16 - pt.length % 16)

/-- Strips PKCS#7 padding; fails when the trailing bytes are not a valid pad. -/
def pkcsUnpad (pt : Bytes) : Option Bytes :=
  let p := pt.getLastD 0
  if 1 ≤ p ∧ p ≤ 16 ∧ p ≤ pt.length ∧ (pt.drop (pt.length - p)).all (fun b => b == p)
  then some (pt.take (pt.length - p))
  else none

/-- CBC encryption over `n` 16-byte blocks: each plaintext block is XORed with
the previous ciphertext block (the IV for the first) and passed through the
block transform. -/
def cbcEncBytes (kb : Bytes) : Nat → Bytes → Bytes → Bytes
  | 0, _, _ => []
  | n + 1, prev, l =>
    let c := xorB (xorB (l.take 16) prev) kb
    c ++ cbcEncBytes kb n c (l.drop 16)

/-- CBC decryption over `n` 16-byte blocks: inverts the block transform and
XORs with the previous ciphertext block (the IV for the first). -/
def cbcDecBytes (kb : Bytes) : Nat → Bytes → Bytes → Bytes
  | 0, _, _ => []
  | n + 1, prev, l =>
    xorB (xorB (l.take 16) kb) prev ++ cbcDecBytes kb n (l.take 16) (l.drop 16)

/-- `createCipheriv(AES256CBC, aesKey, iv)` on export: PKCS#7-pads the plaintext
to the 16-byte block size and CBC-encrypts it.  Modelled from the spec: AES-256
in CBC mode with a per-export IV, with the block transform abstracted as a keyed
bijection. -/
def aesCbcEncrypt (aesKey iv pt : Bytes) : Bytes :=
  let padded := pkcsPad pt
  cbcEncBytes (keyBlock aesKey) (padded.length / 16) iv padded

/-- CBC decryption matching `aesCbcEncrypt`: fails (like the node decipher) when
the ciphertext is empty or not block-aligned, or when the PKCS#7 pad is invalid. -/
def aesCbcDecrypt (aesKey iv ct : Bytes) : Option Bytes :=
  if ct.length % 16 = 0 ∧ ct.length ≠ 0 then
    pkcsUnpad (cbcDecBytes (keyBlock aesKey) (ct.length / 16) iv ct)
  else none

/-- `createHmac(sha256, macKey)` followed by `digest()`.  Modelled from the
spec: HMAC-SHA-256 is an external primitive; the model is a deterministic keyed
digest that always produces exactly 32 bytes (the accumulator is kept below
`2 ^ 64`, with overflow made explicit by `% 2 ^ 64`). -/
def hmacModel (key msg : Bytes) : Bytes :=
  let mix := fun (a b : Nat) => (a * 257 + b + 1) % (2 ^ 64)
  let seed := key.foldl mix 7
  let h := msg.foldl mix (mix seed msg.length)
  (List.range 32).map (fun i => (h / 2 ^ (8 * (i % 8)) + i) % 256)

/-- The accumulated OR of the XOR of corresponding bytes: zero exactly when all
compared byte pairs are equal. -/
def ctFold (a b : Bytes) : Nat := (List.zipWith Nat.xor a b).foldl Nat.lor 0

/-- The number of byte pairs the comparison scans; it scans every pair of the
zipped inputs, never stopping early at a mismatch. -/
def ctScannedBytes (a b : Bytes) : Nat := (List.zipWith Nat.xor a b).length

/-- `constantTimeEqual` from `ts/Crypto.ts`.  Modelled from the spec: a
non-short-circuiting comparison — XOR every pair of corresponding bytes,
OR the results together, and test the accumulator against zero at the end. -/
def constantTimeEqual (a b : Bytes) : Bool :=
  a.length == b.length && ctFold a b == 0

/-- `prependStream(iv)`: passes the stream through with `iv` prepended. -/
def prependStream (pre s : Bytes) : Bytes := pre ++ s

/-- `appendMacStream(macKey)`: passes the stream through while feeding it to an
HMAC accumulator, and appends the final 32-byte tag when the stream ends.
Modelled from the spec: HMAC-SHA-256 "computed over the IV-prefixed ciphertext,
appended as a trailing tag". -/
def appendMacStream (macKey s : Bytes) : Bytes := s ++ hmacModel macKey s

/-- Folds a list of stream stages over the source bytes, in order. -/
def pipeline (source : Bytes) (stages : List (Bytes → Bytes)) : Bytes :=
  stages.foldl (fun s f => f s) source

/-- The stage chain of `exportBackup` (`ts/services/backups/index.ts:73-81`):
record stream → gzip → padding → AES-256-CBC → prepend IV → append MAC. -/
def exportPipeline (aesKey macKey iv recordBytes : Bytes) : Bytes :=
  pipeline recordBytes
    [gzipC, appendPadding, aesCbcEncrypt aesKey iv, prependStream iv, appendMacStream macKey]

/-- `getMacAndUpdateHmac(hmac, onTheirMac)`: intercepts the trailing 32-byte
MAC tag and passes every earlier byte downstream (feeding them to the HMAC
accumulator).  Modelled from the spec: "The final 32 bytes of the stream are
intercepted as `theirMac` rather than being hashed as payload"; the tag counts
as observed only when all 32 tag bytes were seen. -/
def getMacAndUpdateHmacM (s : Bytes) : Option (Bytes × Bytes) :=
  if s.length < 32 then none
  else some (s.take (s.length - 32), s.drop (s.length - 32))

/-- `getIvAndDecipher(aesKey)`: extracts the 16-byte IV from the stream prefix
and CBC-decrypts the remainder.  Modelled from the spec: "extract the IV from
the stream prefix, decrypt with the cipher key". -/
def getIvAndDecipher (aesKey s : Bytes) : Option Bytes :=
  if s.length < 16 then none
  else aesCbcDecrypt aesKey (s.take 16) (s.drop 16)

/-- The error kinds of the service (spec §7).  `authenticationFailed pass`
carries the pass (1 or 2) whose MAC comparison failed. -/
inductive BackupError where
  | busy
  | keyError
  | sinkError
  | missingAuthentication
  | authenticationFailed (pass : Nat)
  | cipherError
  | malformedContainer
deriving DecidableEq, Repr

/-- `getKeyMaterial()`: the AES key and the distinct MAC key. -/
structure KeyMaterial where
  aesKey : Bytes
  macKey : Bytes
deriving DecidableEq, Repr

instance : DecidableEq (Except BackupError Unit) := fun a b =>
  match a, b with
  | .ok (), .ok () => isTrue rfl
  | .error e, .error e' =>
    if h : e = e' then isTrue (by rw [h]) else isFalse (by intro hc; cases hc; exact h rfl)
  | .ok (), .error _ => isFalse (by intro h; cases h)
  | .error _, .ok () => isFalse (by intro h; cases h)

/-- Result of one `exportBackup` call. -/
structure ExportResult where
  /-- The settled outcome of the returned promise. -/
  result : Except BackupError Unit
  /-- The bytes written to the sink. -/
  sink : Bytes
  /-- The flag value the pipeline ran under (`none` when no pipeline started). -/
  flagDuringRun : Option Bool
  /-- The `isRunning` flag after the call settles. -/
  finalRunning : Bool
deriving DecidableEq, Repr

/-- `BackupsService.exportBackup` (`ts/services/backups/index.ts:59-86`).
`isRunning` is the flag at call time, `keyResult` models `getKeyMaterial()`
(which may throw), `sinkOk` models the sink accepting all writes, `iv` is the
16-byte value returned by `randomBytes`, and `recordBytes` the bytes emitted by
`BackupExportStream`. -/
def exportBackupRun (isRunning : Bool) (keyResult : Except BackupError KeyMaterial)
    (sinkOk : Bool) (iv recordBytes : Bytes) : ExportResult :=
  if isRunning then
    { result := .error .busy, sink := [], flagDuringRun := none, finalRunning := isRunning }
  else
    match keyResult with
    | .error e => { result := .error e, sink := [], flagDuringRun := some true,
                    finalRunning := false }
    | .ok km =>
      if sinkOk then
        { result := .ok (), sink := exportPipeline km.aesKey km.macKey iv recordBytes,
          flagDuringRun := some true, finalRunning := false }
      else
        { result := .error .sinkError, sink := [], flagDuringRun := some true,
          finalRunning := false }

/-- Observable events of one `importBackup` call, in order. -/
inductive ImportEv where
  /-- Pass 1 finished and its constant-time MAC comparison succeeded. -/
  | pass1Verified
  /-- Pass 2 produced decrypted plaintext. -/
  | decrypted (pt : Bytes)
  /-- Pass 2 delivered the reframed records to the record sink. -/
  | delivered (rs : List Bytes)
  /-- The pass-2 MAC comparison (against pass 1's `theirMac`) succeeded. -/
  | pass2Verified
deriving DecidableEq, Repr

/-- Result of one `importBackup` call. -/
structure ImportResult where
  /-- The settled outcome of the returned promise. -/
  result : Except BackupError Unit
  /-- The events produced, in order. -/
  events : List ImportEv
  /-- The flag value the passes ran under (`none` when no pass started). -/
  flagDuringRun : Option Bool
  /-- The `isRunning` flag after the call settles. -/
  finalRunning : Bool
deriving DecidableEq, Repr

/-- `BackupsService.importBackup` (`ts/services/backups/index.ts:116-171`).
`createBackupStream` is the source factory; call `0` is pass 1's stream and
call `1` is pass 2's stream.  Pass 1 verifies the MAC over the raw bytes and
discards the payload; pass 2 recomputes the MAC with a fresh accumulator,
decrypts, decompresses, reframes, delivers the records, and re-checks the
recomputed MAC against pass 1's `theirMac`. -/
def importBackupRun (isRunning : Bool) (keyResult : Except BackupError KeyMaterial)
    (createBackupStream : Nat → Bytes) : ImportResult :=
  if isRunning then
    { result := .error .busy, events := [], flagDuringRun := none, finalRunning := isRunning }
  else
    match keyResult with
    | .error e =>
      { result := .error e, events := [], flagDuringRun := some true, finalRunning := false }
    | .ok km =>
      match getMacAndUpdateHmacM (createBackupStream 0) with
      | none =>
        { result := .error .missingAuthentication, events := [],
          flagDuringRun := some true, finalRunning := false }
      | some (body1, theirMac) =>
        if constantTimeEqual (hmacModel km.macKey body1) theirMac then
          match getMacAndUpdateHmacM (createBackupStream 1) with
          | none =>
            { result := .error .missingAuthentication, events := [.pass1Verified],
              flagDuringRun := some true, finalRunning := false }
          | some (body2, _ignoredMac) =>
            match getIvAndDecipher km.aesKey body2 with
            | none =>
              { result := .error .cipherError, events := [.pass1Verified],
                flagDuringRun := some true, finalRunning := false }
            | some pt =>
              match gunzipC pt with
              | none =>
                { result := .error .malformedContainer, events := [.pass1Verified, .decrypted pt],
                  flagDuringRun := some true, finalRunning := false }
              | some framed =>
                match decodeRecords framed with
                | none =>
                  { result := .error .malformedContainer,
                    events := [.pass1Verified, .decrypted pt],
                    flagDuringRun := some true, finalRunning := false }
                | some rs =>
                  if constantTimeEqual (hmacModel km.macKey body2) theirMac then
                    { result := .ok (),
                      events := [.pass1Verified, .decrypted pt, .delivered rs, .pass2Verified],
                      flagDuringRun := some true, finalRunning := false }
                  else
                    { result := .error (.authenticationFailed 2),
                      events := [.pass1Verified, .decrypted pt, .delivered rs],
                      flagDuringRun := some true, finalRunning := false }
        else
          { result := .error (.authenticationFailed 1), events := [],
            flagDuringRun := some true, finalRunning := false }

/-- Pass 1 succeeds for a source factory exactly when the stream contains a
trailing 32-byte tag equal to the HMAC of the rest. -/
def pass1Ok (macKey : Bytes) (createBackupStream : Nat → Bytes) : Bool :=
  match getMacAndUpdateHmacM (createBackupStream 0) with
  | none => false
  | some (body1, theirMac) => constantTimeEqual (hmacModel macKey body1) theirMac

/-- Flips bit `j % 8` of the byte at position `i`. -/
def flipBitAt (l : Bytes) (i j : Nat) : Bytes :=
  l.set i (Nat.xor (l.getD i 0) (2 ^ (j % 8)))

/-- Concrete AES key of the witness scenarios. -/
def wAesKey : Bytes := [1]

/-- Concrete MAC key of the witness scenarios. -/
def wMacKey : Bytes := [2]

/-- Concrete record stream of the witness scenarios. -/
def wRecords : List Bytes := [[7, 8]]

/-- Concrete first IV of the witness scenarios. -/
def wIv1 : Bytes := List.replicate 16 3

/-- Concrete second IV of the witness scenarios. -/
def wIv2 : Bytes := List.replicate 16 4

/-- Envelope exported under `wIv1`. -/
def wEnv1 : Bytes := exportPipeline wAesKey wMacKey wIv1 (encodeRecords wRecords)

/-- Envelope exported under `wIv2`. -/
def wEnv2 : Bytes := exportPipeline wAesKey wMacKey wIv2 (encodeRecords wRecords)

/-- A factory whose pass-1 stream is `wEnv1` and whose pass-2 stream is `wEnv2`. -/
def wMixedFactory : Nat → Bytes := fun i => if i = 0 then wEnv1 else wEnv2

/-- Pass-1 payload of `wEnv1`. -/
def wB1 : Bytes := wEnv1.take (wEnv1.length - 32)

/-- Pass-1 trailing tag of `wEnv1`. -/
def wTm : Bytes := wEnv1.drop (wEnv1.length - 32)

/-- Pass-2 payload of `wEnv2`. -/
def wB2 : Bytes := wEnv2.take (wEnv2.length - 32)

/-- Pass-2 trailing tag of `wEnv2` (discarded by the import). -/
def wM2 : Bytes := wEnv2.drop (wEnv2.length - 32)

/-- Decrypted plaintext of both witness envelopes. -/
def wPt : Bytes := appendPadding (gzipC (encodeRecords wRecords))

/-! ## Theorems -/

theorem varintEncodeFuel_eq (f g n : Nat) (hf : n ≤ f) (hg : n ≤ g) :
    varintEncodeFuel f n = varintEncodeFuel g n := by
  induction f generalizing g n with
  | zero =>
    interval_cases n
    cases g <;> simp [varintEncodeFuel]
  | succ f ih =>
    cases g with
    | zero =>
      interval_cases n
      simp [varintEncodeFuel]
    | succ g =>
      simp only [varintEncodeFuel]
      by_cases h : n < 128
      · simp [h]
      · simp only [h, if_false]
        have hn : 0 < n := by omega
        have : n / 128 < n := Nat.div_lt_self hn (by norm_num)
        rw [ih g (n / 128) (by omega) (by omega)]

theorem varintDecode_encodeFuel (f n : Nat) (hf : n ≤ f) (rest : Bytes) :
    varintDecode (varintEncodeFuel f n ++ rest) = some (n, rest) := by
  induction f generalizing n with
  | zero =>
    interval_cases n
    simp [varintEncodeFuel, varintDecode]
  | succ f ih =>
    simp only [varintEncodeFuel]
    by_cases h : n < 128
    · simp [h, varintDecode]
    · simp only [h, if_false, List.cons_append, varintDecode]
      have hn : 0 < n := by omega
      have hlt : n / 128 < n := Nat.div_lt_self hn (by norm_num)
      rw [ih (n / 128) (by omega)]
      have hmod : n % 128 < 128 := Nat.mod_lt _ (by norm_num)
      simp only [show ¬(n % 128 + 128 < 128) by omega, if_false]
      congr 2
      omega

theorem varintDecode_encode (n : Nat) (rest : Bytes) :
    varintDecode (varintEncode n ++ rest) = some (n, rest) :=
  varintDecode_encodeFuel n n (Nat.le_refl n) rest

/-- The varint encoding always produces at least one byte. -/
theorem varintEncode_ne_nil (n : Nat) : varintEncode n ≠ [] := by
  unfold varintEncode
  cases n with
  | zero => simp [varintEncodeFuel]
  | succ m =>
    simp only [varintEncodeFuel]
    split <;> simp

theorem decodeRecordsFuel_encode (f : Nat) (rs : List Bytes)
    (hf : (encodeRecords rs).length ≤ f) :
    decodeRecordsFuel f (encodeRecords rs) = some rs := by
  induction rs generalizing f with
  | nil => cases f <;> simp [encodeRecords, decodeRecordsFuel]
  | cons r rs ih =>
    have henc : encodeRecords (r :: rs)
        = varintEncode r.length ++ (r ++ encodeRecords rs) := by
      simp [encodeRecords, List.append_assoc]
    have hvne := varintEncode_ne_nil r.length
    have hvlen : 1 ≤ (varintEncode r.length).length := by
      cases hv : varintEncode r.length with
      | nil => exact absurd hv hvne
      | cons a l => simp
    have hlen : (encodeRecords (r :: rs)).length
        = (varintEncode r.length).length + r.length + (encodeRecords rs).length := by
      rw [henc]; simp [Nat.add_assoc]
    cases f with
    | zero =>
      exfalso
      rw [hlen] at hf
      omega
    | succ f =>
      have hne : encodeRecords (r :: rs) ≠ [] := by
        rw [henc]
        cases hv : varintEncode r.length with
        | nil => exact absurd hv hvne
        | cons a l => simp
      rw [henc]
      cases hv : varintEncode r.length with
      | nil => exact absurd hv hvne
      | cons a l =>
        simp only [List.cons_append, decodeRecordsFuel, List.append_eq]
        rw [← List.cons_append, ← hv, varintDecode_encode]
        simp only [List.length_append, show r.length ≤ r.length + (encodeRecords rs).length by omega,
          if_true]
        rw [List.drop_left' rfl, List.take_left' rfl]
        rw [ih f (by rw [hlen] at hf; omega)]

/-- Decoding inverts the delimited-record encoding. -/
theorem decodeRecords_encode (rs : List Bytes) :
    decodeRecords (encodeRecords rs) = some rs :=
  decodeRecordsFuel_encode _ rs (Nat.le_refl _)

/-- Decompression recovers the payload and ignores any appended trailer. -/
theorem gunzipC_gzipC_append (data trailer : Bytes) :
    gunzipC (gzipC data ++ trailer) = some data := by
  unfold gunzipC gzipC
  rw [List.append_assoc, varintDecode_encode]
  simp [List.take_left' rfl, List.length_append, Nat.le_add_right]

theorem le_bucketSize (n : Nat) : n ≤ bucketSize n := by
  unfold bucketSize
  omega

/-- After padding, the stream still starts with the original payload. -/
theorem appendPadding_eq (b : Bytes) :
    appendPadding b = b ++ List.replicate (bucketSize b.length - b.length) 0 := rfl

theorem xorB_length (a b : Bytes) : (xorB a b).length = min a.length b.length := by
  simp [xorB]

theorem xorB_comm (a b : Bytes) : xorB a b = xorB b a := by
  unfold xorB
  induction a generalizing b with
  | nil => cases b <;> simp
  | cons x xs ih => cases b with
    | nil => simp
    | cons y ys =>
      simp only [List.zipWith_cons_cons, List.cons.injEq]
      exact ⟨Nat.xor_comm x y, ih ys⟩

theorem xorB_cancel (a b : Bytes) (h : a.length = b.length) : xorB (xorB a b) b = a := by
  unfold xorB
  induction a generalizing b with
  | nil => simp
  | cons x xs ih =>
    cases b with
    | nil => simp at h
    | cons y ys =>
      simp only [List.zipWith_cons_cons, List.cons.injEq]
      exact ⟨Nat.xor_cancel_right y x, ih ys (by simpa using h)⟩

theorem keyBlock_length (aesKey : Bytes) : (keyBlock aesKey).length = 16 := by
  simp [keyBlock]

theorem pkcsPad_length (pt : Bytes) :
    (pkcsPad pt).length = pt.length + (16 - pt.length % 16) := by
  simp [pkcsPad]

theorem pkcsPad_length_mod (pt : Bytes) : (pkcsPad pt).length % 16 = 0 := by
  rw [pkcsPad_length]
  have := Nat.mod_lt pt.length (show 0 < 16 by norm_num)
  omega

theorem pkcsPad_length_pos (pt : Bytes) : 0 < (pkcsPad pt).length := by
  rw [pkcsPad_length]
  have := Nat.mod_lt pt.length (show 0 < 16 by norm_num)
  omega

theorem pkcsUnpad_pkcsPad (pt : Bytes) : pkcsUnpad (pkcsPad pt) = some pt := by
  have hplt : pt.length % 16 < 16 := Nat.mod_lt _ (by norm_num)
  have hlen : (pkcsPad pt).length = pt.length + (16 - pt.length % 16) := pkcsPad_length pt
  have hlast : (pkcsPad pt).getLastD 0 = 16 - pt.length % 16 := by
    unfold pkcsPad
    rw [List.getLastD_eq_getLast?, List.getLast?_append, List.getLast?_replicate,
      if_neg (by omega)]
    rfl
  have hsub : (pkcsPad pt).length - (16 - pt.length % 16) = pt.length := by omega
  have hdrop : (pkcsPad pt).drop pt.length
      = List.replicate (16 - pt.length % 16) (16 - pt.length % 16) := by
    unfold pkcsPad
    exact List.drop_left pt _
  have htake : (pkcsPad pt).take pt.length = pt := by
    unfold pkcsPad
    exact List.take_left pt _
  unfold pkcsUnpad
  rw [hlast]
  dsimp only
  rw [hsub, hdrop, htake, if_pos]
  refine ⟨by omega, by omega, by omega, ?_⟩
  simp [List.all_eq_true, List.eq_of_mem_replicate]

theorem cbcEncBytes_length (kb : Bytes) (hkb : kb.length = 16) :
    ∀ (n : Nat) (prev l : Bytes), prev.length = 16 → l.length = 16 * n →
      (cbcEncBytes kb n prev l).length = 16 * n := by
  intro n
  induction n with
  | zero => intro prev l _ _; simp [cbcEncBytes]
  | succ n ih =>
    intro prev l hprev hl
    have htake : (l.take 16).length = 16 := by
      rw [List.length_take]
      omega
    have hc : (xorB (xorB (l.take 16) prev) kb).length = 16 := by
      rw [xorB_length, xorB_length, htake, hprev, hkb]
      simp
    simp only [cbcEncBytes, List.length_append]
    rw [hc, ih _ _ hc (by rw [List.length_drop]; omega)]
    ring

theorem cbcDecBytes_cbcEncBytes (kb : Bytes) (hkb : kb.length = 16) :
    ∀ (n : Nat) (prev l : Bytes), prev.length = 16 → l.length = 16 * n →
      cbcDecBytes kb n prev (cbcEncBytes kb n prev l) = l := by
  intro n
  induction n with
  | zero =>
    intro prev l _ hl
    have : l = [] := List.eq_nil_of_length_eq_zero (by omega)
    simp [cbcEncBytes, cbcDecBytes, this]
  | succ n ih =>
    intro prev l hprev hl
    have htake : (l.take 16).length = 16 := by
      rw [List.length_take]; omega
    have hxp : (xorB (l.take 16) prev).length = 16 := by
      rw [xorB_length, htake, hprev]; simp
    have hc : (xorB (xorB (l.take 16) prev) kb).length = 16 := by
      rw [xorB_length, hxp, hkb]; simp
    simp only [cbcEncBytes, cbcDecBytes]
    set c := xorB (xorB (l.take 16) prev) kb with hcdef
    rw [List.take_left' hc, List.drop_left' hc]
    have hinv : xorB (xorB c kb) prev = l.take 16 := by
      rw [hcdef, xorB_cancel _ _ (by rw [hxp, hkb]), xorB_cancel _ _ (by rw [htake, hprev])]
    rw [hinv, ih c (l.drop 16) hc (by rw [List.length_drop]; omega)]
    exact List.take_append_drop 16 l

theorem aesCbcEncrypt_length (aesKey iv pt : Bytes) (hiv : iv.length = 16) :
    (aesCbcEncrypt aesKey iv pt).length = (pkcsPad pt).length := by
  unfold aesCbcEncrypt
  have hmod := pkcsPad_length_mod pt
  rw [cbcEncBytes_length (keyBlock aesKey) (keyBlock_length aesKey) _ iv _ hiv (by omega)]
  omega

theorem aesCbcDecrypt_aesCbcEncrypt (aesKey iv pt : Bytes) (hiv : iv.length = 16) :
    aesCbcDecrypt aesKey iv (aesCbcEncrypt aesKey iv pt) = some pt := by
  have hlen := aesCbcEncrypt_length aesKey iv pt hiv
  have hmod := pkcsPad_length_mod pt
  have hpos := pkcsPad_length_pos pt
  have heq : aesCbcEncrypt aesKey iv pt
      = cbcEncBytes (keyBlock aesKey) ((pkcsPad pt).length / 16) iv (pkcsPad pt) := rfl
  unfold aesCbcDecrypt
  rw [if_pos ⟨by omega, by omega⟩, hlen, heq,
    cbcDecBytes_cbcEncBytes (keyBlock aesKey) (keyBlock_length aesKey) _ iv _ hiv (by omega)]
  exact pkcsUnpad_pkcsPad pt

theorem hmacModel_length (key msg : Bytes) : (hmacModel key msg).length = 32 := by
  simp [hmacModel]

theorem nat_lor_eq_zero {x y : Nat} (h : Nat.lor x y = 0) : x = 0 ∧ y = 0 := by
  have h' : x ||| y = 0 := h
  constructor <;>
  · apply Nat.eq_of_testBit_eq
    intro i
    have hb := congrArg (fun n => Nat.testBit n i) h'
    simp only [Nat.testBit_or, Nat.zero_testBit, Bool.or_eq_false_iff] at hb
    simp [hb.1, hb.2]

theorem foldl_lor_eq_zero (l : List Nat) (acc : Nat) :
    l.foldl Nat.lor acc = 0 ↔ acc = 0 ∧ ∀ x ∈ l, x = 0 := by
  induction l generalizing acc with
  | nil => simp
  | cons x xs ih =>
    simp only [List.foldl_cons, ih, List.mem_cons]
    constructor
    · rintro ⟨hax, hall⟩
      obtain ⟨hacc, hx⟩ := nat_lor_eq_zero hax
      exact ⟨hacc, fun y hy => hy.elim (fun h => h ▸ hx) (hall y)⟩
    · rintro ⟨hacc, hall⟩
      refine ⟨?_, fun y hy => hall y (Or.inr hy)⟩
      rw [hacc, hall x (Or.inl rfl)]
      decide

theorem eq_of_zipWith_xor_zero : ∀ (a b : Bytes), a.length = b.length →
    (∀ x ∈ List.zipWith Nat.xor a b, x = 0) → a = b
  | [], [], _, _ => rfl
  | [], _ :: _, h, _ => by simp at h
  | _ :: _, [], h, _ => by simp at h
  | x :: xs, y :: ys, h, hall => by
    have hmem : Nat.xor x y ∈ List.zipWith Nat.xor (x :: xs) (y :: ys) := by
      rw [List.zipWith_cons_cons]
      exact List.mem_cons_self _ _
    have hx : x = y := Nat.xor_eq_zero.mp (hall _ hmem)
    have hxs : xs = ys :=
      eq_of_zipWith_xor_zero xs ys (by simpa using h)
        (fun z hz => hall z (by rw [List.zipWith_cons_cons]; exact List.mem_cons_of_mem _ hz))
    rw [hx, hxs]

theorem constantTimeEqual_eq_true_iff (a b : Bytes) :
    constantTimeEqual a b = true ↔ a = b := by
  unfold constantTimeEqual ctFold
  rw [Bool.and_eq_true, beq_iff_eq, beq_iff_eq, foldl_lor_eq_zero]
  constructor
  · rintro ⟨hlen, -, hall⟩
    exact eq_of_zipWith_xor_zero a b hlen hall
  · rintro rfl
    refine ⟨rfl, rfl, fun x hx => ?_⟩
    rw [List.zipWith_same] at hx
    obtain ⟨y, -, rfl⟩ := List.mem_map.mp hx
    exact Nat.xor_self y

theorem constantTimeEqual_self (a : Bytes) : constantTimeEqual a a = true :=
  (constantTimeEqual_eq_true_iff a a).mpr rfl

/-- Scanned-byte count: the comparison always scans one byte pair per position
of the shorter input, independent of the bytes' values. -/
theorem ctScannedBytes_eq_min (a b : Bytes) :
    ctScannedBytes a b = min a.length b.length := by
  simp [ctScannedBytes]

theorem getMacAndUpdateHmacM_append (body mac : Bytes) (hmac : mac.length = 32) :
    getMacAndUpdateHmacM (body ++ mac) = some (body, mac) := by
  unfold getMacAndUpdateHmacM
  have hlen : (body ++ mac).length = body.length + 32 := by simp [hmac]
  rw [if_neg (by omega)]
  have hsub : (body ++ mac).length - 32 = body.length := by omega
  rw [hsub, List.take_left, List.drop_left]

theorem getIvAndDecipher_append (aesKey iv ct : Bytes) (hiv : iv.length = 16) :
    getIvAndDecipher aesKey (iv ++ ct) = aesCbcDecrypt aesKey iv ct := by
  unfold getIvAndDecipher
  have hlen : (iv ++ ct).length = 16 + ct.length := by simp [hiv]
  rw [if_neg (by omega), List.take_left' hiv, List.drop_left' hiv]

/-- The exported envelope is the IV-prefixed ciphertext followed by its MAC. -/
theorem exportPipeline_eq (aesKey macKey iv recordBytes : Bytes) :
    exportPipeline aesKey macKey iv recordBytes
      = (iv ++ aesCbcEncrypt aesKey iv (appendPadding (gzipC recordBytes)))
        ++ hmacModel macKey
            (iv ++ aesCbcEncrypt aesKey iv (appendPadding (gzipC recordBytes))) := rfl

/-- Importing the envelope exported from a record stream succeeds and delivers
exactly the original records. -/
theorem importBackupRun_exportPipeline (km : KeyMaterial) (iv : Bytes) (rs : List Bytes)
    (hiv : iv.length = 16) :
    importBackupRun false (.ok km)
        (fun _ => exportPipeline km.aesKey km.macKey iv (encodeRecords rs))
      = { result := .ok (),
          events := [.pass1Verified, .decrypted (appendPadding (gzipC (encodeRecords rs))),
            .delivered rs, .pass2Verified],
          flagDuringRun := some true, finalRunning := false } := by
  have h1 : getMacAndUpdateHmacM (exportPipeline km.aesKey km.macKey iv (encodeRecords rs))
      = some (iv ++ aesCbcEncrypt km.aesKey iv (appendPadding (gzipC (encodeRecords rs))),
          hmacModel km.macKey
            (iv ++ aesCbcEncrypt km.aesKey iv (appendPadding (gzipC (encodeRecords rs))))) := by
    rw [exportPipeline_eq]
    exact getMacAndUpdateHmacM_append _ _ (hmacModel_length _ _)
  have h2 : getIvAndDecipher km.aesKey
        (iv ++ aesCbcEncrypt km.aesKey iv (appendPadding (gzipC (encodeRecords rs))))
      = some (appendPadding (gzipC (encodeRecords rs))) := by
    rw [getIvAndDecipher_append _ _ _ hiv]
    exact aesCbcDecrypt_aesCbcEncrypt _ _ _ hiv
  have h3 : gunzipC (appendPadding (gzipC (encodeRecords rs))) = some (encodeRecords rs) := by
    rw [appendPadding_eq]
    exact gunzipC_gzipC_append _ _
  unfold importBackupRun
  rw [if_neg (by simp)]
  rw [h1]
  dsimp only
  rw [if_pos (constantTimeEqual_self _)]
  rw [h2]
  dsimp only
  rw [h3]
  dsimp only
  rw [decodeRecords_encode]
  dsimp only
  rw [if_pos (constantTimeEqual_self _)]

theorem flipBitAt_length (l : Bytes) (i j : Nat) : (flipBitAt l i j).length = l.length := by
  simp [flipBitAt]

theorem nat_xor_pow_ne (b j : Nat) : Nat.xor b (2 ^ (j % 8)) ≠ b := by
  intro h
  have h' : b ^^^ 2 ^ (j % 8) = b ^^^ 0 := by
    calc b ^^^ 2 ^ (j % 8) = b := h
      _ = b ^^^ 0 := (Nat.xor_zero b).symm
  have h2 : (2 : Nat) ^ (j % 8) = 0 := Nat.xor_right_injective h'
  have : (0 : Nat) < 2 ^ (j % 8) := Nat.pos_pow_of_pos _ (by norm_num)
  omega

theorem flipBitAt_ne (l : Bytes) (i j : Nat) (hi : i < l.length) : flipBitAt l i j ≠ l := by
  intro h
  have hlen : i < (flipBitAt l i j).length := by rw [flipBitAt_length]; exact hi
  have hget : (flipBitAt l i j).get ⟨i, hlen⟩ = Nat.xor (l.getD i 0) (2 ^ (j % 8)) := by
    simp only [flipBitAt, List.get_eq_getElem]
    exact List.getElem_set_self _
  have hget2 : (flipBitAt l i j).get ⟨i, hlen⟩ = l.get ⟨i, hi⟩ := List.get_of_eq h _
  rw [hget2, List.getD_eq_getElem l 0 hi] at hget
  simp only [List.get_eq_getElem] at hget
  exact nat_xor_pow_ne _ j hget.symm

/-- A mismatching pair of equal-length tags compares as `false`. -/
theorem constantTimeEqual_eq_false (a b : Bytes) (hne : a ≠ b) :
    constantTimeEqual a b = false := by
  cases h : constantTimeEqual a b with
  | false => rfl
  | true => exact absurd ((constantTimeEqual_eq_true_iff a b).mp h) hne

/-- Flipping a bit inside the left part of a concatenation. -/
theorem flipBitAt_append_left (l1 l2 : Bytes) (i j : Nat) (h : i < l1.length) :
    flipBitAt (l1 ++ l2) i j = flipBitAt l1 i j ++ l2 := by
  unfold flipBitAt
  rw [List.set_append_left i _ h]
  congr 2
  rw [List.getD_eq_getElem _ 0 (by simp; omega), List.getD_eq_getElem _ 0 h]
  exact congrArg (fun x => Nat.xor x (2 ^ (j % 8))) (List.getElem_append_left h)

/-- Flipping a bit inside the right part of a concatenation. -/
theorem flipBitAt_append_right (l1 l2 : Bytes) (i j : Nat) (h : l1.length ≤ i)
    (h2 : i < l1.length + l2.length) :
    flipBitAt (l1 ++ l2) i j = l1 ++ flipBitAt l2 (i - l1.length) j := by
  unfold flipBitAt
  rw [List.set_append_right i _ h]
  congr 3
  rw [List.getD_eq_getElem _ 0 (by simp; omega), List.getD_eq_getElem _ 0 (by omega)]
  exact List.getElem_append_right h

/-- CBC ciphertexts over the same plaintext but different IVs differ. -/
theorem cbcEncBytes_ne (kb : Bytes) (hkb : kb.length = 16) (n : Nat) (hn : 0 < n)
    (iv1 iv2 l : Bytes) (h1 : iv1.length = 16) (h2 : iv2.length = 16)
    (hl : 16 ≤ l.length) (hne : iv1 ≠ iv2) :
    cbcEncBytes kb n iv1 l ≠ cbcEncBytes kb n iv2 l := by
  obtain ⟨m, rfl⟩ : ∃ m, n = m + 1 := ⟨n - 1, by omega⟩
  simp only [cbcEncBytes]
  intro heq
  have ht : (l.take 16).length = 16 := by rw [List.length_take]; omega
  have hx1 : (xorB (l.take 16) iv1).length = 16 := by rw [xorB_length, ht, h1]; simp
  have hx2 : (xorB (l.take 16) iv2).length = 16 := by rw [xorB_length, ht, h2]; simp
  have hc1 : (xorB (xorB (l.take 16) iv1) kb).length = 16 := by
    rw [xorB_length, hx1, hkb]; simp
  have hc2 : (xorB (xorB (l.take 16) iv2) kb).length = 16 := by
    rw [xorB_length, hx2, hkb]; simp
  have hceq : xorB (xorB (l.take 16) iv1) kb = xorB (xorB (l.take 16) iv2) kb := by
    have htk := congrArg (fun s => List.take 16 s) heq
    simpa [List.take_left' hc1, List.take_left' hc2] using htk
  have hxiv : xorB (l.take 16) iv1 = xorB (l.take 16) iv2 := by
    have e1 : xorB (xorB (xorB (l.take 16) iv1) kb) kb = xorB (xorB (l.take 16) iv1) kb
        → True := fun _ => trivial
    calc xorB (l.take 16) iv1
        = xorB (xorB (xorB (l.take 16) iv1) kb) kb := by
          rw [xorB_cancel _ _ (by rw [hx1, hkb])]
      _ = xorB (xorB (xorB (l.take 16) iv2) kb) kb := by rw [hceq]
      _ = xorB (l.take 16) iv2 := by rw [xorB_cancel _ _ (by rw [hx2, hkb])]
  apply hne
  calc iv1 = xorB (xorB iv1 (l.take 16)) (l.take 16) := by
        rw [xorB_cancel _ _ (by rw [h1, ht])]
    _ = xorB (xorB iv2 (l.take 16)) (l.take 16) := by
        rw [xorB_comm iv1 _, xorB_comm iv2 _, hxiv]
    _ = iv2 := by rw [xorB_cancel _ _ (by rw [h2, ht])]

/-- A pass-1 MAC mismatch aborts the import before pass 2, with no events. -/
theorem importBackupRun_pass1_mismatch (km : KeyMaterial) (f : Nat → Bytes)
    (b tm : Bytes) (hm : getMacAndUpdateHmacM (f 0) = some (b, tm))
    (hc : constantTimeEqual (hmacModel km.macKey b) tm = false) :
    importBackupRun false (.ok km) f
      = { result := .error (.authenticationFailed 1), events := [],
          flagDuringRun := some true, finalRunning := false } := by
  unfold importBackupRun
  rw [if_neg (by simp), hm]
  dsimp only
  rw [if_neg (by rw [hc]; exact Bool.false_ne_true)]

/-- A stream with no observable trailing tag aborts the import with
`missingAuthentication` and no events. -/
theorem importBackupRun_missing_mac (km : KeyMaterial) (f : Nat → Bytes)
    (hm : getMacAndUpdateHmacM (f 0) = none) :
    importBackupRun false (.ok km) f
      = { result := .error .missingAuthentication, events := [],
          flagDuringRun := some true, finalRunning := false } := by
  unfold importBackupRun
  rw [if_neg (by simp), hm]

/-- When pass 1 does not succeed, the import produces no events at all. -/
theorem importBackupRun_events_of_pass1_false (km : KeyMaterial) (f : Nat → Bytes)
    (h : pass1Ok km.macKey f = false) :
    (importBackupRun false (.ok km) f).events = [] := by
  unfold pass1Ok at h
  cases hm : getMacAndUpdateHmacM (f 0) with
  | none => rw [importBackupRun_missing_mac km f hm]
  | some p =>
    obtain ⟨b, tm⟩ := p
    rw [hm] at h
    dsimp only at h
    rw [importBackupRun_pass1_mismatch km f b tm hm h]

/-- Every import settles with the flag cleared, after running under a set flag. -/
theorem importBackupRun_flag (keyResult : Except BackupError KeyMaterial)
    (f : Nat → Bytes) :
    (importBackupRun false keyResult f).finalRunning = false
    ∧ (importBackupRun false keyResult f).flagDuringRun = some true := by
  unfold importBackupRun
  rw [if_neg (by simp)]
  cases keyResult with
  | error e => exact ⟨rfl, rfl⟩
  | ok km =>
    dsimp only
    cases hm : getMacAndUpdateHmacM (f 0) with
    | none => exact ⟨rfl, rfl⟩
    | some p =>
      obtain ⟨b, tm⟩ := p
      dsimp only
      by_cases hc : constantTimeEqual (hmacModel km.macKey b) tm = true
      · rw [if_pos hc]
        cases hm2 : getMacAndUpdateHmacM (f 1) with
        | none => exact ⟨rfl, rfl⟩
        | some p2 =>
          obtain ⟨b2, m2⟩ := p2
          dsimp only
          cases hd : getIvAndDecipher km.aesKey b2 with
          | none => exact ⟨rfl, rfl⟩
          | some pt =>
            dsimp only
            cases hg : gunzipC pt with
            | none => exact ⟨rfl, rfl⟩
            | some framed =>
              dsimp only
              cases hr : decodeRecords framed with
              | none => exact ⟨rfl, rfl⟩
              | some rs =>
                dsimp only
                by_cases hc2 : constantTimeEqual (hmacModel km.macKey b2) tm = true
                · rw [if_pos hc2]; exact ⟨rfl, rfl⟩
                · rw [if_neg hc2]; exact ⟨rfl, rfl⟩
      · rw [if_neg hc]; exact ⟨rfl, rfl⟩

/-- Every export settles with the flag cleared, after running under a set flag. -/
theorem exportBackupRun_flag (keyResult : Except BackupError KeyMaterial)
    (sinkOk : Bool) (iv recordBytes : Bytes) :
    (exportBackupRun false keyResult sinkOk iv recordBytes).finalRunning = false
    ∧ (exportBackupRun false keyResult sinkOk iv recordBytes).flagDuringRun = some true := by
  unfold exportBackupRun
  rw [if_neg (by simp)]
  cases keyResult with
  | error e => exact ⟨rfl, rfl⟩
  | ok km =>
    dsimp only
    by_cases hs : sinkOk = true
    · rw [if_pos hs]; exact ⟨rfl, rfl⟩
    · rw [if_neg hs]; exact ⟨rfl, rfl⟩

/-- C1: for every non-empty record stream, importing the envelope produced by
exporting it (via a factory that replays the exported sink bytes) succeeds and
delivers exactly the same sequence of records to the record sink. -/
theorem claim_C1_roundtrip (km : KeyMaterial) (iv : Bytes) (rs : List Bytes)
    (hiv : iv.length = 16) (hne : rs ≠ []) :
    importBackupRun false (.ok km)
        (fun _ => (exportBackupRun false (.ok km) true iv (encodeRecords rs)).sink)
      = { result := .ok (),
          events := [.pass1Verified,
            .decrypted (appendPadding (gzipC (encodeRecords rs))),
            .delivered rs, .pass2Verified],
          flagDuringRun := some true, finalRunning := false } := by
  have hs : (exportBackupRun false (.ok km) true iv (encodeRecords rs)).sink
      = exportPipeline km.aesKey km.macKey iv (encodeRecords rs) := rfl
  simp only [hs]
  exact importBackupRun_exportPipeline km iv rs hiv

/-- Witness for C1 at a concrete record stream, IV and key material. -/
theorem claim_C1_roundtrip_witness :
    (List.replicate 16 7 : Bytes).length = 16 ∧ ([[1, 2, 3]] : List Bytes) ≠ []
    ∧ importBackupRun false (.ok ⟨[5, 6], [9]⟩)
        (fun _ => (exportBackupRun false (.ok ⟨[5, 6], [9]⟩) true (List.replicate 16 7)
          (encodeRecords [[1, 2, 3]])).sink)
      = { result := .ok (),
          events := [.pass1Verified,
            .decrypted (appendPadding (gzipC (encodeRecords [[1, 2, 3]]))),
            .delivered [[1, 2, 3]], .pass2Verified],
          flagDuringRun := some true, finalRunning := false } :=
  ⟨by decide, by decide,
    claim_C1_roundtrip ⟨[5, 6], [9]⟩ (List.replicate 16 7) [[1, 2, 3]]
      (by decide) (by decide)⟩

/-- C2: the exported sink bytes are exactly IV ‖ Ciphertext ‖ MAC(32 bytes),
with Ciphertext the CBC encryption of the padded, compressed record stream
(compress, then pad, then encrypt) and MAC the keyed digest of IV ‖ Ciphertext;
the envelope's first 16 bytes are the IV. -/
theorem claim_C2_wire_format (km : KeyMaterial) (iv recordBytes : Bytes)
    (hiv : iv.length = 16) :
    (exportBackupRun false (.ok km) true iv recordBytes).sink
      = iv ++ aesCbcEncrypt km.aesKey iv (appendPadding (gzipC recordBytes))
          ++ hmacModel km.macKey
              (iv ++ aesCbcEncrypt km.aesKey iv (appendPadding (gzipC recordBytes)))
    ∧ (hmacModel km.macKey
        (iv ++ aesCbcEncrypt km.aesKey iv (appendPadding (gzipC recordBytes)))).length = 32
    ∧ ((exportBackupRun false (.ok km) true iv recordBytes).sink).take 16 = iv := by
  have hs : (exportBackupRun false (.ok km) true iv recordBytes).sink
      = exportPipeline km.aesKey km.macKey iv recordBytes := rfl
  refine ⟨?_, hmacModel_length _ _, ?_⟩
  · rw [hs, exportPipeline_eq, List.append_assoc]
  · rw [hs, exportPipeline_eq, List.append_assoc, List.take_left' hiv]

/-- Witness for C2 at concrete key material, IV and record bytes. -/
theorem claim_C2_wire_format_witness :
    (List.replicate 16 3 : Bytes).length = 16
    ∧ (exportBackupRun false (.ok ⟨[4], [5]⟩) true (List.replicate 16 3) [10, 20]).sink
      = List.replicate 16 3
          ++ aesCbcEncrypt [4] (List.replicate 16 3) (appendPadding (gzipC [10, 20]))
          ++ hmacModel [5]
              (List.replicate 16 3
                ++ aesCbcEncrypt [4] (List.replicate 16 3) (appendPadding (gzipC [10, 20]))) :=
  ⟨by decide,
    (claim_C2_wire_format ⟨[4], [5]⟩ (List.replicate 16 3) [10, 20] (by decide)).1⟩

/-- C4: a call made while the service is already running fails immediately with
the busy error, writes nothing, produces no events, starts no pipeline, and
leaves the running flag set. -/
theorem claim_C4_busy (keyResult : Except BackupError KeyMaterial) (sinkOk : Bool)
    (iv recordBytes : Bytes) (f : Nat → Bytes) :
    exportBackupRun true keyResult sinkOk iv recordBytes
      = { result := .error .busy, sink := [], flagDuringRun := none, finalRunning := true }
    ∧ importBackupRun true keyResult f
      = { result := .error .busy, events := [], flagDuringRun := none,
          finalRunning := true } :=
  ⟨rfl, rfl⟩

/-- C5: every call that passes the busy check runs its pipeline with the flag
set to `true` and clears the flag when it settles, on success and on every
error path (key derivation, any pipeline stage, any MAC check). -/
theorem claim_C5_flag_lifecycle (keyResult : Except BackupError KeyMaterial)
    (sinkOk : Bool) (iv recordBytes : Bytes) (f : Nat → Bytes) :
    ((exportBackupRun false keyResult sinkOk iv recordBytes).flagDuringRun = some true
      ∧ (exportBackupRun false keyResult sinkOk iv recordBytes).finalRunning = false)
    ∧ ((importBackupRun false keyResult f).flagDuringRun = some true
      ∧ (importBackupRun false keyResult f).finalRunning = false) :=
  ⟨⟨(exportBackupRun_flag keyResult sinkOk iv recordBytes).2,
    (exportBackupRun_flag keyResult sinkOk iv recordBytes).1⟩,
   ⟨(importBackupRun_flag keyResult f).2, (importBackupRun_flag keyResult f).1⟩⟩

/-- C3: pass 2 (decryption) starts only after pass 1's MAC comparison succeeds;
a pass-1 mismatch aborts the import with an authentication error before any
plaintext is produced or any record is delivered. -/
theorem claim_C3_two_pass_order (km : KeyMaterial) (f : Nat → Bytes) :
    (∀ b tm, getMacAndUpdateHmacM (f 0) = some (b, tm) →
      constantTimeEqual (hmacModel km.macKey b) tm = false →
      importBackupRun false (.ok km) f
        = { result := .error (.authenticationFailed 1), events := [],
            flagDuringRun := some true, finalRunning := false })
    ∧ (∀ pt, ImportEv.decrypted pt ∈ (importBackupRun false (.ok km) f).events →
        pass1Ok km.macKey f = true)
    ∧ (∀ rs, ImportEv.delivered rs ∈ (importBackupRun false (.ok km) f).events →
        pass1Ok km.macKey f = true) := by
  refine ⟨fun b tm hm hc => importBackupRun_pass1_mismatch km f b tm hm hc, ?_, ?_⟩
  all_goals
    intro x hmem
    cases hq : pass1Ok km.macKey f with
    | true => rfl
    | false =>
      rw [importBackupRun_events_of_pass1_false km f hq] at hmem
      simp at hmem

/-- Witness for C3: a stream of 48 equal bytes whose trailing tag mismatches. -/
theorem claim_C3_two_pass_order_witness :
    (getMacAndUpdateHmacM ((fun _ => List.replicate 48 2) 0)
        = some (List.replicate 16 2, List.replicate 32 2)
      ∧ constantTimeEqual (hmacModel [9] (List.replicate 16 2)) (List.replicate 32 2) = false)
    ∧ importBackupRun false (.ok ⟨[8], [9]⟩) (fun _ => List.replicate 48 2)
      = { result := .error (.authenticationFailed 1), events := [],
          flagDuringRun := some true, finalRunning := false } :=
  ⟨⟨by decide, by decide⟩,
    (claim_C3_two_pass_order ⟨[8], [9]⟩ (fun _ => List.replicate 48 2)).1
      (List.replicate 16 2) (List.replicate 32 2) (by decide) (by decide)⟩

/-- C6 counterexample: a 40-byte stream is shorter than 48 bytes, yet
importing it fails with `authenticationFailed 1` (a 32-byte trailing tag was
captured and mismatched), not with `missingAuthentication` as claimed. -/
theorem claim_C6_counterexample :
    (List.replicate 40 1 : Bytes).length < 48
    ∧ (importBackupRun false (.ok ⟨[1], [2]⟩) (fun _ => List.replicate 40 1)).result
        = .error (.authenticationFailed 1)
    ∧ (importBackupRun false (.ok ⟨[1], [2]⟩) (fun _ => List.replicate 40 1)).result
        ≠ .error .missingAuthentication :=
  ⟨by decide, by decide, by decide⟩

/-- C6 (amended): a stream shorter than 32 bytes (too short to contain the
32-byte tag) fails with `missingAuthentication`; any stream shorter than
48 bytes fails in pass 1 or at IV extraction — with `missingAuthentication`,
`authenticationFailed 1` or `cipherError`, never a decode crash — and no
records are ever delivered. -/
theorem claim_C6_truncation (km : KeyMaterial) (s : Bytes) (h : s.length < 48) :
    ((importBackupRun false (.ok km) (fun _ => s)).result = .error .missingAuthentication
      ∨ (importBackupRun false (.ok km) (fun _ => s)).result
          = .error (.authenticationFailed 1)
      ∨ (importBackupRun false (.ok km) (fun _ => s)).result = .error .cipherError)
    ∧ (s.length < 32 →
        (importBackupRun false (.ok km) (fun _ => s)).result
          = .error .missingAuthentication)
    ∧ (∀ rs, ImportEv.delivered rs ∉ (importBackupRun false (.ok km) (fun _ => s)).events) := by
  by_cases h32 : s.length < 32
  · have hm : getMacAndUpdateHmacM s = none := by
      unfold getMacAndUpdateHmacM
      rw [if_pos h32]
    rw [importBackupRun_missing_mac km (fun _ => s) hm]
    exact ⟨Or.inl rfl, fun _ => rfl, by simp⟩
  · have hm : getMacAndUpdateHmacM s = some (s.take (s.length - 32), s.drop (s.length - 32)) := by
      unfold getMacAndUpdateHmacM
      rw [if_neg h32]
    by_cases hc : constantTimeEqual (hmacModel km.macKey (s.take (s.length - 32)))
        (s.drop (s.length - 32)) = true
    · have hd : getIvAndDecipher km.aesKey (s.take (s.length - 32)) = none := by
        unfold getIvAndDecipher
        rw [if_pos (by rw [List.length_take]; omega)]
      have hrun : importBackupRun false (.ok km) (fun _ => s)
          = { result := .error .cipherError, events := [.pass1Verified],
              flagDuringRun := some true, finalRunning := false } := by
        unfold importBackupRun
        rw [if_neg (by simp), hm]
        dsimp only
        rw [if_pos hc]
        rw [hd]
      rw [hrun]
      exact ⟨Or.inr (Or.inr rfl), fun h32' => absurd h32' h32, by simp⟩
    · rw [importBackupRun_pass1_mismatch km (fun _ => s) _ _ hm
        (Bool.not_eq_true _ ▸ hc : constantTimeEqual _ _ = false)]
      exact ⟨Or.inr (Or.inl rfl), fun h32' => absurd h32' h32, by simp⟩

/-- Witness for C6 (amended) at a concrete 10-byte stream. -/
theorem claim_C6_truncation_witness :
    (List.replicate 10 0 : Bytes).length < 48 ∧ (List.replicate 10 0 : Bytes).length < 32
    ∧ (importBackupRun false (.ok ⟨[1], [2]⟩) (fun _ => List.replicate 10 0)).result
        = .error .missingAuthentication :=
  ⟨by decide, by decide,
    (claim_C6_truncation ⟨[1], [2]⟩ (List.replicate 10 0) (by decide)).2.1 (by decide)⟩

/-- C7: pass 2 recomputes the MAC with a fresh accumulator over its own stream
and, after the decrypt/decompress/reframe pipeline drains, compares it against
pass 1's `theirMac` (the trailing tag extracted in pass 2 is discarded and
unconstrained); a mismatch fails the import with the pass-2 authentication
error even though pass 1 succeeded and records were already delivered. -/
theorem claim_C7_second_pass_recheck (km : KeyMaterial) (f : Nat → Bytes)
    (b1 tm b2 m2 pt framed : Bytes) (rs : List Bytes)
    (h0 : getMacAndUpdateHmacM (f 0) = some (b1, tm))
    (h1 : constantTimeEqual (hmacModel km.macKey b1) tm = true)
    (h2 : getMacAndUpdateHmacM (f 1) = some (b2, m2))
    (h3 : getIvAndDecipher km.aesKey b2 = some pt)
    (h4 : gunzipC pt = some framed)
    (h5 : decodeRecords framed = some rs)
    (h6 : constantTimeEqual (hmacModel km.macKey b2) tm = false) :
    importBackupRun false (.ok km) f
      = { result := .error (.authenticationFailed 2),
          events := [.pass1Verified, .decrypted pt, .delivered rs],
          flagDuringRun := some true, finalRunning := false } := by
  unfold importBackupRun
  rw [if_neg (by simp), h0]
  dsimp only
  rw [if_pos h1, h2]
  dsimp only
  rw [h3]
  dsimp only
  rw [h4]
  dsimp only
  rw [h5]
  dsimp only
  rw [if_neg (by rw [h6]; exact Bool.false_ne_true)]

set_option maxRecDepth 1000000 in
set_option maxHeartbeats 1000000 in
/-- Witness for C7: pass 1 sees `wEnv1`, pass 2 sees `wEnv2` (same records,
other IV), so pass 2 drains fully but its recomputed MAC mismatches `wTm`. -/
theorem claim_C7_second_pass_recheck_witness :
    (getMacAndUpdateHmacM (wMixedFactory 0) = some (wB1, wTm)
      ∧ constantTimeEqual (hmacModel wMacKey wB1) wTm = true
      ∧ getMacAndUpdateHmacM (wMixedFactory 1) = some (wB2, wM2)
      ∧ getIvAndDecipher wAesKey wB2 = some wPt
      ∧ gunzipC wPt = some (encodeRecords wRecords)
      ∧ decodeRecords (encodeRecords wRecords) = some wRecords
      ∧ constantTimeEqual (hmacModel wMacKey wB2) wTm = false)
    ∧ importBackupRun false (.ok ⟨wAesKey, wMacKey⟩) wMixedFactory
      = { result := .error (.authenticationFailed 2),
          events := [.pass1Verified, .decrypted wPt, .delivered wRecords],
          flagDuringRun := some true, finalRunning := false } :=
  ⟨⟨by decide, by decide, by decide, by decide, by decide, by decide, by decide⟩,
    claim_C7_second_pass_recheck ⟨wAesKey, wMacKey⟩ wMixedFactory wB1 wTm wB2 wM2 wPt
      (encodeRecords wRecords) wRecords (by decide) (by decide) (by decide) (by decide)
      (by decide) (by decide) (by decide)⟩

/-- C8: flipping any single bit of a valid exported envelope — in the MAC
region unconditionally, in the IV or ciphertext region whenever the tampered
payload's digest differs from the stored tag (HMAC second-preimage resistance,
assumed of the external primitive) — makes the import fail in pass 1 with an
authentication error, before any decrypted byte or record is produced. -/
theorem claim_C8_tamper (km : KeyMaterial) (iv recordBytes : Bytes) (i j : Nat)
    (hi : i < (exportPipeline km.aesKey km.macKey iv recordBytes).length)
    (hbody : i < (exportPipeline km.aesKey km.macKey iv recordBytes).length - 32 →
      hmacModel km.macKey
          ((flipBitAt (exportPipeline km.aesKey km.macKey iv recordBytes) i j).take
            ((exportPipeline km.aesKey km.macKey iv recordBytes).length - 32))
        ≠ (exportPipeline km.aesKey km.macKey iv recordBytes).drop
            ((exportPipeline km.aesKey km.macKey iv recordBytes).length - 32)) :
    importBackupRun false (.ok km)
        (fun _ => flipBitAt (exportPipeline km.aesKey km.macKey iv recordBytes) i j)
      = { result := .error (.authenticationFailed 1), events := [],
          flagDuringRun := some true, finalRunning := false } := by
  have henv := exportPipeline_eq km.aesKey km.macKey iv recordBytes
  set body := iv ++ aesCbcEncrypt km.aesKey iv (appendPadding (gzipC recordBytes))
    with hbodydef
  set mac := hmacModel km.macKey body with hmacdef
  have hmlen : mac.length = 32 := hmacModel_length _ _
  have hlen : (exportPipeline km.aesKey km.macKey iv recordBytes).length
      = body.length + 32 := by
    rw [henv, List.length_append, hmlen]
  have hsub : (exportPipeline km.aesKey km.macKey iv recordBytes).length - 32
      = body.length := by omega
  by_cases hcase : i < body.length
  · have hflip : flipBitAt (exportPipeline km.aesKey km.macKey iv recordBytes) i j
        = flipBitAt body i j ++ mac := by
      rw [henv]
      exact flipBitAt_append_left body mac i j hcase
    have hm : getMacAndUpdateHmacM
          (flipBitAt (exportPipeline km.aesKey km.macKey iv recordBytes) i j)
        = some (flipBitAt body i j, mac) := by
      rw [hflip]
      exact getMacAndUpdateHmacM_append _ _ hmlen
    have htake : (flipBitAt (exportPipeline km.aesKey km.macKey iv recordBytes) i j).take
          ((exportPipeline km.aesKey km.macKey iv recordBytes).length - 32)
        = flipBitAt body i j := by
      rw [hflip, hsub]
      exact List.take_left' (flipBitAt_length body i j)
    have hdropenv : (exportPipeline km.aesKey km.macKey iv recordBytes).drop
          ((exportPipeline km.aesKey km.macKey iv recordBytes).length - 32) = mac := by
      rw [hsub, henv]
      exact List.drop_left body mac
    have hne : hmacModel km.macKey (flipBitAt body i j) ≠ mac := by
      have := hbody (by omega)
      rw [htake, hdropenv] at this
      exact this
    exact importBackupRun_pass1_mismatch km _ _ _ hm
      (constantTimeEqual_eq_false _ _ hne)
  · have hge : body.length ≤ i := by omega
    have hi2 : i < body.length + mac.length := by rw [hmlen]; omega
    have hflip : flipBitAt (exportPipeline km.aesKey km.macKey iv recordBytes) i j
        = body ++ flipBitAt mac (i - body.length) j := by
      rw [henv]
      exact flipBitAt_append_right body mac i j hge hi2
    have hm : getMacAndUpdateHmacM
          (flipBitAt (exportPipeline km.aesKey km.macKey iv recordBytes) i j)
        = some (body, flipBitAt mac (i - body.length) j) := by
      rw [hflip]
      exact getMacAndUpdateHmacM_append _ _ (by rw [flipBitAt_length, hmlen])
    have hmacne : flipBitAt mac (i - body.length) j ≠ mac :=
      flipBitAt_ne mac _ j (by rw [hmlen]; omega)
    have hc : constantTimeEqual (hmacModel km.macKey body)
        (flipBitAt mac (i - body.length) j) = false := by
      rw [← hmacdef]
      exact constantTimeEqual_eq_false _ _ (Ne.symm hmacne)
    exact importBackupRun_pass1_mismatch km _ _ _ hm hc

set_option maxRecDepth 1000000 in
set_option maxHeartbeats 1000000 in
/-- Witness for C8: flipping bit 0 of the last MAC byte of a valid envelope. -/
theorem claim_C8_tamper_witness :
    (127 < wEnv1.length
      ∧ (127 < wEnv1.length - 32 →
          hmacModel wMacKey ((flipBitAt wEnv1 127 0).take (wEnv1.length - 32))
            ≠ wEnv1.drop (wEnv1.length - 32)))
    ∧ importBackupRun false (.ok ⟨wAesKey, wMacKey⟩) (fun _ => flipBitAt wEnv1 127 0)
      = { result := .error (.authenticationFailed 1), events := [],
          flagDuringRun := some true, finalRunning := false } :=
  ⟨⟨by decide, by decide⟩,
    claim_C8_tamper ⟨wAesKey, wMacKey⟩ wIv1 (encodeRecords wRecords) 127 0
      (by decide) (by decide)⟩

/-- C9: exporting the same record stream under the same keys with two different
16-byte IVs yields different ciphertext bodies, yet importing either envelope
succeeds and delivers the same record stream. -/
theorem claim_C9_iv_uniqueness (km : KeyMaterial) (iv1 iv2 : Bytes) (rs : List Bytes)
    (h1 : iv1.length = 16) (h2 : iv2.length = 16) (hne : iv1 ≠ iv2) :
    aesCbcEncrypt km.aesKey iv1 (appendPadding (gzipC (encodeRecords rs)))
      ≠ aesCbcEncrypt km.aesKey iv2 (appendPadding (gzipC (encodeRecords rs)))
    ∧ importBackupRun false (.ok km)
        (fun _ => exportPipeline km.aesKey km.macKey iv1 (encodeRecords rs))
      = { result := .ok (),
          events := [.pass1Verified,
            .decrypted (appendPadding (gzipC (encodeRecords rs))),
            .delivered rs, .pass2Verified],
          flagDuringRun := some true, finalRunning := false }
    ∧ importBackupRun false (.ok km)
        (fun _ => exportPipeline km.aesKey km.macKey iv2 (encodeRecords rs))
      = { result := .ok (),
          events := [.pass1Verified,
            .decrypted (appendPadding (gzipC (encodeRecords rs))),
            .delivered rs, .pass2Verified],
          flagDuringRun := some true, finalRunning := false } := by
  refine ⟨?_, importBackupRun_exportPipeline km iv1 rs h1,
    importBackupRun_exportPipeline km iv2 rs h2⟩
  show cbcEncBytes (keyBlock km.aesKey)
      ((pkcsPad (appendPadding (gzipC (encodeRecords rs)))).length / 16) iv1
      (pkcsPad (appendPadding (gzipC (encodeRecords rs))))
    ≠ cbcEncBytes (keyBlock km.aesKey)
      ((pkcsPad (appendPadding (gzipC (encodeRecords rs)))).length / 16) iv2
      (pkcsPad (appendPadding (gzipC (encodeRecords rs))))
  have hmod := pkcsPad_length_mod (appendPadding (gzipC (encodeRecords rs)))
  have hpl := pkcsPad_length (appendPadding (gzipC (encodeRecords rs)))
  have hmlt := Nat.mod_lt (appendPadding (gzipC (encodeRecords rs))).length
    (show 0 < 16 by norm_num)
  exact cbcEncBytes_ne (keyBlock km.aesKey) (keyBlock_length _) _ (by omega)
    iv1 iv2 _ h1 h2 (by omega) hne

set_option maxRecDepth 1000000 in
set_option maxHeartbeats 1000000 in
/-- Witness for C9 at the concrete witness IVs, keys and records. -/
theorem claim_C9_iv_uniqueness_witness :
    (wIv1.length = 16 ∧ wIv2.length = 16 ∧ wIv1 ≠ wIv2)
    ∧ aesCbcEncrypt wAesKey wIv1 (appendPadding (gzipC (encodeRecords wRecords)))
      ≠ aesCbcEncrypt wAesKey wIv2 (appendPadding (gzipC (encodeRecords wRecords))) :=
  ⟨⟨by decide, by decide, by decide⟩,
    (claim_C9_iv_uniqueness ⟨wAesKey, wMacKey⟩ wIv1 wIv2 wRecords
      (by decide) (by decide) (by decide)).1⟩

/-- C10: the MAC comparison is non-short-circuiting — the number of byte pairs
it scans depends only on the input lengths (in fact it is the length of the
shorter input), never on the position of the first mismatch — and it decides
exact equality of the tags. -/
theorem claim_C10_constant_time :
    (∀ a b a' b' : Bytes, a.length = a'.length → b.length = b'.length →
      ctScannedBytes a b = ctScannedBytes a' b')
    ∧ (∀ a b : Bytes, ctScannedBytes a b = min a.length b.length)
    ∧ (∀ a b : Bytes, constantTimeEqual a b = true ↔ a = b) := by
  refine ⟨fun a b a' b' ha hb => ?_, ctScannedBytes_eq_min, constantTimeEqual_eq_true_iff⟩
  rw [ctScannedBytes_eq_min, ctScannedBytes_eq_min, ha, hb]

/-- Witness for C10: two pairs with equal lengths but different mismatch
positions are scanned identically. -/
theorem claim_C10_constant_time_witness :
    (([0, 1, 2, 3] : Bytes).length = ([5, 5, 5, 5] : Bytes).length
      ∧ ([0, 1, 2, 9] : Bytes).length = ([9, 5, 5, 5] : Bytes).length)
    ∧ ctScannedBytes [0, 1, 2, 3] [0, 1, 2, 9] = ctScannedBytes [5, 5, 5, 5] [9, 5, 5, 5] :=
  ⟨⟨by decide, by decide⟩,
    claim_C10_constant_time.1 [0, 1, 2, 3] [0, 1, 2, 9] [5, 5, 5, 5] [9, 5, 5, 5]
      (by decide) (by decide)⟩

end Backups

